import Mathlib

/-!
Verification of the Rael terminal rendering engine (`src/src/lib.rs`).

The engine keeps a 3D grid of half-block pixels (column, half-row, depth
layer), collapses the depth layers into one `CompositedCell` per terminal
character cell, and emits ANSI escape sequences only for the cells whose
composited state changed since the previous frame.

The Lean definitions below are a shallow embedding of the Rust code:
`Vec` becomes `List`, in-place mutation becomes explicit state passing,
`u8` color channels become `Nat` (the only arithmetic on them is
`255 - channel`, which for `u8` inputs coincides with truncated `Nat`
subtraction), and the two nested `for` loops of `render` become a single
`foldl` over the row-major list of (row, column) pairs.  Reads that the
Rust code performs with a panicking index (`self.pixels[i]`) are modelled
with `List.getD`; they are exercised only at indices that are in bounds
for every canvas the public API can build.
-/

/-- An RGB color with red, green and blue components (`Color` in lib.rs). -/
structure Color where
  r : Nat
  g : Nat
  b : Nat
deriving DecidableEq

/-- A single half-block pixel (`TerminalPixel` in lib.rs). -/
structure TerminalPixel where
  color : Color
deriving DecidableEq

/-- The composited (top, bottom) colors of one terminal character cell
(`CompositedCell` in lib.rs). -/
structure CompositedCell where
  top_color : Color
  bottom_color : Color
deriving DecidableEq

/-- The canvas state (`Canvas` in lib.rs). -/
structure Canvas where
  width : Nat
  height : Nat
  pixels : List TerminalPixel
  composited_cells : List CompositedCell
  previous_composited_cells : List CompositedCell
  default_color : Color
  max_z_layers : Nat
deriving DecidableEq

/-- Rust constant `Canvas::DEFAULT_MAX_Z_LAYERS`. -/
def DEFAULT_MAX_Z_LAYERS : Nat := 10

/-- Rust `Canvas::new`: all pixels and the current composited cells start at the
default color; the previous composited cells start at its channel-wise
complement so that the first render emits every cell. -/
def Canvas.new (width height : Nat) (default_color : Color) : Canvas :=
  let initial_pixel : TerminalPixel := ⟨default_color⟩
  let initial_composited_cell : CompositedCell := ⟨default_color, default_color⟩
  let opposite_color : Color :=
    ⟨255 - default_color.r, 255 - default_color.g, 255 - default_color.b⟩
  let different_composited_cell : CompositedCell := ⟨opposite_color, opposite_color⟩
  let total_half_block_pixels := width * height * 2 * DEFAULT_MAX_Z_LAYERS
  let total_terminal_cells := width * height
  ⟨width, height,
   List.replicate total_half_block_pixels initial_pixel,
   List.replicate total_terminal_cells initial_composited_cell,
   List.replicate total_terminal_cells different_composited_cell,
   default_color, DEFAULT_MAX_Z_LAYERS⟩

/-- Rust `Canvas::clear`: reset every stored pixel to the default color. -/
def Canvas.clear (c : Canvas) : Canvas :=
  let initial_pixel : TerminalPixel := ⟨c.default_color⟩
  { c with pixels := c.pixels.map (fun _ => initial_pixel) }

/-- Rust `Canvas::get_index`: bounds-checked linearization of (x, y, z). -/
def Canvas.get_index (c : Canvas) (x y z : Nat) : Option Nat :=
  if c.width ≤ x then none
  else if c.height * 2 ≤ y then none
  else if c.max_z_layers ≤ z then none
  else some (x + (y * c.width) + (z * c.width * c.height * 2))

/-- Rust `Canvas::set_pixel`: overwrite the addressed pixel, or silently do
nothing when the coordinate is out of bounds. -/
def Canvas.set_pixel (c : Canvas) (x y z : Nat) (color : Color) : Canvas :=
  match c.get_index x y z with
  | some index => { c with pixels := c.pixels.set index ⟨color⟩ }
  | none => c

/-- The color stored in the flat pixel vector at a linear index
(the Rust read `self.pixels[index].color`). -/
def Canvas.pixelColorAt (c : Canvas) (index : Nat) : Color :=
  (c.pixels.getD index ⟨c.default_color⟩).color

/-- The descending layer scan of `Canvas::render`
(`for z in (0..self.max_z_layers).rev()`): `resolveFrom x y m` scans layers
m-1, m-2, …, 0 and returns the first stored color that differs from the
default, or the default color when none does. -/
def Canvas.resolveFrom (c : Canvas) (x y : Nat) : Nat → Color
  | 0 => c.default_color
  | z + 1 =>
    match c.get_index x y z with
    | some index =>
      if c.pixelColorAt index ≠ c.default_color then c.pixelColorAt index
      else c.resolveFrom x y z
    | none => c.resolveFrom x y z

/-- The resolved (effective) color of the half-row `y` in column `x`:
the full layer scan from layer `max_z_layers - 1` down to layer 0. -/
def Canvas.resolveColor (c : Canvas) (x y : Nat) : Color :=
  c.resolveFrom x y c.max_z_layers

/-- The ANSI cursor-move sequence `\x1b[row;colH` emitted by `render`. -/
def escMove (row col : Nat) : String :=
  "\x1b[" ++ toString row ++ ";" ++ toString col ++ "H"

/-- The 24-bit background color sequence `\x1b[48;2;r;g;bm`. -/
def escBg (c : Color) : String :=
  "\x1b[48;2;" ++ toString c.r ++ ";" ++ toString c.g ++ ";" ++ toString c.b ++ "m"

/-- The 24-bit foreground color sequence `\x1b[38;2;r;g;bm`. -/
def escFg (c : Color) : String :=
  "\x1b[38;2;" ++ toString c.r ++ ";" ++ toString c.g ++ ";" ++ toString c.b ++ "m"

/-- The lower-half-block glyph U+2584 that `render` emits for every dirty cell. -/
def halfBlock : String := "▄"

/-- Everything `render` appends for one dirty cell at terminal cell row `y`,
column `x` (both 0-indexed): cursor move to the 1-indexed position, then
background = top color, foreground = bottom color, then the glyph. -/
def cellUpdate (y x : Nat) (cell : CompositedCell) : String :=
  escMove (y + 1) (x + 1) ++ escBg cell.top_color ++ escFg cell.bottom_color ++ halfBlock

/-- The row-major traversal order of the two nested loops in `render`:
`(0,0), (0,1), …, (0,width-1), (1,0), …, (height-1,width-1)`. -/
def cellOrder (height width : Nat) : List (Nat × Nat) :=
  (List.range height).flatMap (fun y => (List.range width).map (fun x => (y, x)))

/-- The composited cell `render` computes for the terminal cell
`(row yx.1, column yx.2)`: top half-row `2*row`, bottom half-row `2*row+1`. -/
def Canvas.renderCell (c : Canvas) (yx : Nat × Nat) : CompositedCell :=
  ⟨c.resolveColor yx.2 (yx.1 * 2), c.resolveColor yx.2 (yx.1 * 2 + 1)⟩

/-- The previous-frame composited cell `render` compares against
(the Rust read `self.previous_composited_cells[terminal_cell_index]`). -/
def Canvas.prevAt (c : Canvas) (yx : Nat × Nat) : CompositedCell :=
  c.previous_composited_cells.getD (yx.1 * c.width + yx.2) ⟨c.default_color, c.default_color⟩

/-- One iteration of the render loop body: append the escape sequences when
the composited cell changed, and store the composited cell at its index. -/
def Canvas.renderStep (c : Canvas) (acc : String × List CompositedCell) (yx : Nat × Nat) :
    String × List CompositedCell :=
  let curr := c.renderCell yx
  (if curr = c.prevAt yx then acc.1 else acc.1 ++ cellUpdate yx.1 yx.2 curr,
   acc.2.set (yx.1 * c.width + yx.2) curr)

/-- Rust `Canvas::render`: run the loop body over every cell in row-major order,
then replace the previous composited cells wholesale by the current ones.
Returns the emitted string together with the updated canvas. -/
def Canvas.render (c : Canvas) : String × Canvas :=
  let res := (cellOrder c.height c.width).foldl c.renderStep ("", c.composited_cells)
  (res.1, { c with composited_cells := res.2, previous_composited_cells := res.2 })

/-- What the loop body appends for one cell, as a standalone function. -/
def Canvas.emitCell (c : Canvas) (yx : Nat × Nat) : String :=
  if c.renderCell yx = c.prevAt yx then "" else cellUpdate yx.1 yx.2 (c.renderCell yx)

/-- Concatenation of a list of strings. -/
def strJoin : List String → String
  | [] => ""
  | s :: l => s ++ strJoin l

/-- The color stored for coordinate (x, y, z) in the flat pixel vector,
read at the linear offset `get_index` computes for in-bounds coordinates. -/
def Canvas.pixelAt (c : Canvas) (x y z : Nat) : Color :=
  c.pixelColorAt (x + (y * c.width) + (z * c.width * c.height * 2))

/-- The full current composited grid, cell by cell in row-major order. -/
def buildCells (c : Canvas) : List CompositedCell :=
  (cellOrder c.height c.width).map c.renderCell

/-- The color (0,0,0) used by the concrete test scenarios. -/
def black : Color := ⟨0, 0, 0⟩

/-- The 2-columns-by-1-row scenario of the spec: default color (0,0,0),
pixel (0,0,0) set to (255,0,0) and pixel (0,1,0) set to (0,255,0). -/
def c1canvas : Canvas :=
  ((Canvas.new 2 1 black).set_pixel 0 0 0 ⟨255, 0, 0⟩).set_pixel 0 1 0 ⟨0, 255, 0⟩

/-- The layer-priority scenario: two different non-default colors at the
same (x, y) on layers 1 and 3. -/
def c3canvas : Canvas :=
  ((Canvas.new 1 1 black).set_pixel 0 0 1 ⟨255, 0, 0⟩).set_pixel 0 0 3 ⟨0, 0, 255⟩

theorem get_index_some (c : Canvas) {x y z : Nat} (hx : x < c.width)
    (hy : y < c.height * 2) (hz : z < c.max_z_layers) :
    c.get_index x y z = some (x + (y * c.width) + (z * c.width * c.height * 2)) := by
  rw [Canvas.get_index, if_neg (Nat.not_le.mpr hx), if_neg (Nat.not_le.mpr hy),
    if_neg (Nat.not_le.mpr hz)]

theorem get_index_none (c : Canvas) {x y z : Nat}
    (h : c.width ≤ x ∨ c.height * 2 ≤ y ∨ c.max_z_layers ≤ z) :
    c.get_index x y z = none := by
  rw [Canvas.get_index]
  rcases h with h | h | h
  · rw [if_pos h]
  · by_cases hx : c.width ≤ x
    · rw [if_pos hx]
    · rw [if_neg hx, if_pos h]
  · by_cases hx : c.width ≤ x
    · rw [if_pos hx]
    · by_cases hy : c.height * 2 ≤ y
      · rw [if_neg hx, if_pos hy]
      · rw [if_neg hx, if_neg hy, if_pos h]

theorem resolveFrom_all_default (c : Canvas) {x y : Nat} (hx : x < c.width)
    (hy : y < c.height * 2) {m : Nat} (hm : m ≤ c.max_z_layers)
    (h : ∀ z, z < m → c.pixelAt x y z = c.default_color) :
    c.resolveFrom x y m = c.default_color := by
  induction m with
  | zero => rfl
  | succ k ih =>
    rw [Canvas.resolveFrom,
      get_index_some c hx hy (Nat.lt_of_lt_of_le (Nat.lt_succ_self k) hm)]
    have hk : c.pixelColorAt (x + (y * c.width) + (k * c.width * c.height * 2)) =
        c.default_color := h k (Nat.lt_succ_self k)
    simp only [hk, ne_eq, not_true_eq_false, if_false]
    exact ih (Nat.le_of_succ_le hm) (fun z hz => h z (Nat.lt_succ_of_lt hz))

theorem resolveFrom_finds (c : Canvas) {x y : Nat} (hx : x < c.width)
    (hy : y < c.height * 2) {z₀ m : Nat} (hm : m ≤ c.max_z_layers) (hz : z₀ < m)
    (hne : c.pixelAt x y z₀ ≠ c.default_color)
    (habove : ∀ z, z < m → z₀ < z → c.pixelAt x y z = c.default_color) :
    c.resolveFrom x y m = c.pixelAt x y z₀ := by
  induction m with
  | zero => exact absurd hz (Nat.not_lt_zero z₀)
  | succ k ih =>
    rw [Canvas.resolveFrom,
      get_index_some c hx hy (Nat.lt_of_lt_of_le (Nat.lt_succ_self k) hm)]
    rcases Nat.lt_succ_iff_lt_or_eq.mp hz with hlt | heq
    · have hk : c.pixelColorAt (x + (y * c.width) + (k * c.width * c.height * 2)) =
          c.default_color := habove k (Nat.lt_succ_self k) hlt
      simp only [hk, ne_eq, not_true_eq_false, if_false]
      exact ih (Nat.le_of_succ_le hm) hlt
        (fun z hzk hz₀z => habove z (Nat.lt_succ_of_lt hzk) hz₀z)
    · subst heq
      exact if_pos hne

/-- C4: `get_index` returns none exactly when a coordinate is out of bounds
(x ≥ width, y ≥ height·2 or z ≥ max_z_layers), and otherwise returns the
linear offset x + y·width + z·width·height·2. -/
theorem c4_get_index_spec (c : Canvas) (x y z : Nat) :
    (c.get_index x y z = none ↔
      c.width ≤ x ∨ c.height * 2 ≤ y ∨ c.max_z_layers ≤ z)
    ∧ (x < c.width → y < c.height * 2 → z < c.max_z_layers →
      c.get_index x y z = some (x + (y * c.width) + (z * c.width * c.height * 2))) := by
  constructor
  · constructor
    · intro hnone
      by_contra h
      push_neg at h
      rw [get_index_some c h.1 h.2.1 h.2.2] at hnone
      exact Option.noConfusion hnone
    · exact get_index_none c
  · intro hx hy hz
    exact get_index_some c hx hy hz

theorem c4_witness :
    (Canvas.new 3 2 black).get_index 2 3 4 =
      some (2 + (3 * (Canvas.new 3 2 black).width) +
        (4 * (Canvas.new 3 2 black).width * (Canvas.new 3 2 black).height * 2)) :=
  (c4_get_index_spec (Canvas.new 3 2 black) 2 3 4).2 (by decide) (by decide) (by decide)

/-- C5: an out-of-bounds `set_pixel` (x ≥ width, y ≥ height·2 or
z ≥ max_z_layers) leaves the entire canvas state unchanged. -/
theorem c5_set_pixel_oob (c : Canvas) (x y z : Nat) (color : Color)
    (h : c.width ≤ x ∨ c.height * 2 ≤ y ∨ c.max_z_layers ≤ z) :
    c.set_pixel x y z color = c := by
  rw [Canvas.set_pixel, get_index_none c h]

theorem c5_witness :
    ((Canvas.new 2 1 black).width ≤ 2 ∨ (Canvas.new 2 1 black).height * 2 ≤ 0 ∨
      (Canvas.new 2 1 black).max_z_layers ≤ 0) ∧
    (Canvas.new 2 1 black).set_pixel 2 0 0 ⟨9, 9, 9⟩ = Canvas.new 2 1 black :=
  ⟨Or.inl (by decide),
   c5_set_pixel_oob (Canvas.new 2 1 black) 2 0 0 ⟨9, 9, 9⟩ (Or.inl (by decide))⟩

/-- C3: for an in-bounds column and half-row, the resolved color is the color
of the highest-indexed layer whose stored color differs from the default
(scanning layers max_z_layers-1 down to 0), and the default color when every
layer stores the default. -/
theorem c3_layer_resolution (c : Canvas) (x y : Nat) (hx : x < c.width)
    (hy : y < c.height * 2) :
    ((∀ z, z < c.max_z_layers → c.pixelAt x y z = c.default_color) →
      c.resolveColor x y = c.default_color)
    ∧ (∀ z₀, z₀ < c.max_z_layers → c.pixelAt x y z₀ ≠ c.default_color →
      (∀ z, z < c.max_z_layers → z₀ < z → c.pixelAt x y z = c.default_color) →
      c.resolveColor x y = c.pixelAt x y z₀) := by
  constructor
  · intro h
    exact resolveFrom_all_default c hx hy (Nat.le_refl _) h
  · intro z₀ hz₀ hne habove
    exact resolveFrom_finds c hx hy (Nat.le_refl _) hz₀ hne habove

theorem c3_witness :
    c3canvas.resolveColor 0 0 = c3canvas.pixelAt 0 0 3 ∧
    c3canvas.pixelAt 0 0 3 = ⟨0, 0, 255⟩ :=
  ⟨(c3_layer_resolution c3canvas 0 0 (by decide) (by decide)).2 3
    (by decide) (by decide) (by decide), by decide⟩

/-- C8: `clear` overwrites every stored pixel across all layers with the
default color and leaves every other field of the canvas unchanged. -/
theorem c8_clear_spec (c : Canvas) :
    c.clear = { c with pixels := List.replicate c.pixels.length ⟨c.default_color⟩ } := by
  rw [Canvas.clear]
  congr 1
  exact List.map_const c.pixels _

/-- C10: `render` never modifies the pixel grid, the dimensions, the default
color or the layer count; it mutates only the two composited-cell arrays. -/
theorem c10_render_preserves_pixels (c : Canvas) :
    (c.render).2.pixels = c.pixels ∧ (c.render).2.width = c.width ∧
    (c.render).2.height = c.height ∧
    (c.render).2.default_color = c.default_color ∧
    (c.render).2.max_z_layers = c.max_z_layers ∧
    (∀ x y z, (c.render).2.pixelAt x y z = c.pixelAt x y z) :=
  ⟨rfl, rfl, rfl, rfl, rfl, fun _ _ _ => rfl⟩

theorem renderStep_eq (c : Canvas) (s : String) (t : List CompositedCell) (yx : Nat × Nat) :
    c.renderStep (s, t) yx =
      (s ++ c.emitCell yx, t.set (yx.1 * c.width + yx.2) (c.renderCell yx)) := by
  simp only [Canvas.renderStep, Canvas.emitCell]
  by_cases h : c.renderCell yx = c.prevAt yx
  · simp [h]
  · simp [h]

theorem fold_fst_eq (c : Canvas) (l : List (Nat × Nat)) :
    ∀ (s : String) (t : List CompositedCell),
    (l.foldl c.renderStep (s, t)).1 = s ++ strJoin (l.map c.emitCell) := by
  induction l with
  | nil =>
    intro s t
    rw [List.foldl_nil, List.map_nil]
    exact (String.append_empty s).symm
  | cons a l ih =>
    intro s t
    rw [List.foldl_cons, renderStep_eq, ih, List.map_cons]
    simp only [strJoin]
    rw [String.append_assoc]

theorem fold_snd_eq (c : Canvas) (l : List (Nat × Nat)) :
    ∀ (s : String) (t : List CompositedCell),
    (l.foldl c.renderStep (s, t)).2 =
      l.foldl (fun t yx => t.set (yx.1 * c.width + yx.2) (c.renderCell yx)) t := by
  induction l with
  | nil => intro s t; rfl
  | cons a l ih =>
    intro s t
    rw [List.foldl_cons, renderStep_eq, ih, List.foldl_cons]

theorem render_fst_eq (c : Canvas) :
    (c.render).1 = strJoin ((cellOrder c.height c.width).map c.emitCell) := by
  show ((cellOrder c.height c.width).foldl c.renderStep ("", c.composited_cells)).1 = _
  rw [fold_fst_eq, String.empty_append]

theorem render_snd_eq (c : Canvas) :
    (c.render).2 = { c with
      composited_cells := (cellOrder c.height c.width).foldl
        (fun t yx => t.set (yx.1 * c.width + yx.2) (c.renderCell yx)) c.composited_cells,
      previous_composited_cells := (cellOrder c.height c.width).foldl
        (fun t yx => t.set (yx.1 * c.width + yx.2) (c.renderCell yx)) c.composited_cells } := by
  show ({ c with
      composited_cells :=
        ((cellOrder c.height c.width).foldl c.renderStep ("", c.composited_cells)).2,
      previous_composited_cells :=
        ((cellOrder c.height c.width).foldl c.renderStep ("", c.composited_cells)).2 } : Canvas) = _
  rw [fold_snd_eq]

theorem cellOrder_succ (h w : Nat) :
    cellOrder (h + 1) w = cellOrder h w ++ (List.range w).map (fun x => (h, x)) := by
  rw [cellOrder, List.range_succ, List.flatMap_append, cellOrder]
  congr 1
  rw [List.flatMap_cons, List.flatMap_nil, List.append_nil]

theorem cellOrder_length (h w : Nat) : (cellOrder h w).length = h * w := by
  induction h with
  | zero => simp [cellOrder]
  | succ k ih =>
    rw [cellOrder_succ, List.length_append, ih, List.length_map, List.length_range,
      Nat.succ_mul]

theorem cellOrder_idx_map (h w : Nat) :
    (cellOrder h w).map (fun yx => yx.1 * w + yx.2) = List.range' 0 (h * w) := by
  induction h with
  | zero => simp [cellOrder]
  | succ k ih =>
    rw [cellOrder_succ, List.map_append, ih, List.map_map]
    have hcomp : ((fun yx => yx.1 * w + yx.2) ∘ (fun x => ((k, x) : Nat × Nat))) =
        fun x => k * w + x := rfl
    rw [hcomp, ← List.range'_eq_map_range (k * w) w]
    have happ := List.range'_append 0 (k * w) w 1
    simp only [Nat.one_mul, Nat.zero_add] at happ
    rw [happ, Nat.succ_mul, Nat.add_comm (k * w) w]

theorem cellOrder_getElem (h w y x : Nat) (hy : y < h) (hx : x < w) :
    (cellOrder h w)[y * w + x]? = some (y, x) := by
  induction h with
  | zero => exact absurd hy (Nat.not_lt_zero y)
  | succ k ih =>
    rw [cellOrder_succ, List.getElem?_append]
    rcases Nat.lt_succ_iff_lt_or_eq.mp hy with hlt | heq
    · have h1 : y * w + x < (y + 1) * w := by
        rw [Nat.succ_mul]
        exact Nat.add_lt_add_left hx _
      have h2 : (y + 1) * w ≤ k * w := Nat.mul_le_mul_right w hlt
      rw [if_pos (by rw [cellOrder_length]; exact Nat.lt_of_lt_of_le h1 h2)]
      exact ih hlt
    · subst heq
      rw [if_neg (by rw [cellOrder_length]; exact Nat.not_lt.mpr (Nat.le_add_right _ _)),
        cellOrder_length, Nat.add_sub_cancel_left, List.getElem?_map,
        List.getElem?_range hx]
      rfl

theorem mem_cellOrder {h w : Nat} {yx : Nat × Nat} (hmem : yx ∈ cellOrder h w) :
    yx.1 < h ∧ yx.2 < w := by
  rw [cellOrder, List.mem_flatMap] at hmem
  obtain ⟨y, hy, hmem2⟩ := hmem
  rw [List.mem_map] at hmem2
  obtain ⟨x, hx, rfl⟩ := hmem2
  exact ⟨List.mem_range.mp hy, List.mem_range.mp hx⟩

theorem cellOrder_pos (h w : Nat) (hh : 0 < h) (hw : 0 < w) :
    ∃ t, cellOrder h w = (0, 0) :: t := by
  obtain ⟨h', rfl⟩ := Nat.exists_eq_succ_of_ne_zero (Nat.pos_iff_ne_zero.mp hh)
  obtain ⟨w', rfl⟩ := Nat.exists_eq_succ_of_ne_zero (Nat.pos_iff_ne_zero.mp hw)
  rw [cellOrder, List.range_succ_eq_map, List.flatMap_cons, List.range_succ_eq_map,
    List.map_cons, List.cons_append]
  exact ⟨_, rfl⟩

theorem take_succ_set (t : List CompositedCell) (k : Nat) (v : CompositedCell)
    (hk : k < t.length) :
    (t.set k v).take (k + 1) = t.take k ++ [v] := by
  rw [List.set_eq_take_cons_drop v hk,
    show k + 1 = (t.take k).length + 1 from by rw [List.length_take_of_le (Nat.le_of_lt hk)],
    List.take_append]
  rfl

theorem foldl_set_consecutive (g : Nat × Nat → CompositedCell) (w : Nat) :
    ∀ (l : List (Nat × Nat)) (t : List CompositedCell) (k : Nat),
    l.map (fun yx => yx.1 * w + yx.2) = List.range' k l.length →
    k + l.length = t.length →
    l.foldl (fun t yx => t.set (yx.1 * w + yx.2) (g yx)) t = t.take k ++ l.map g := by
  intro l
  induction l with
  | nil =>
    intro t k _ hlen
    rw [List.foldl_nil, List.map_nil, List.append_nil]
    have hk : k = t.length := by simpa using hlen
    rw [hk, List.take_length]
  | cons a l ih =>
    intro t k hmap hlen
    rw [List.map_cons, List.length_cons, List.range'_succ] at hmap
    obtain ⟨ha, hmap'⟩ := List.cons_eq_cons.mp hmap
    have hklen : k < t.length := by
      rw [← hlen, List.length_cons]
      omega
    rw [List.foldl_cons,
      ih (t.set (a.1 * w + a.2) (g a)) (k + 1) hmap'
        (by rw [List.length_set, ← hlen, List.length_cons]; omega)]
    rw [ha, take_succ_set t k (g a) hklen, List.map_cons, List.append_assoc,
      List.singleton_append]

theorem resolveFrom_update (c : Canvas) (cc pc : List CompositedCell) (x y : Nat) :
    ∀ m, Canvas.resolveFrom
      { c with composited_cells := cc, previous_composited_cells := pc } x y m =
      c.resolveFrom x y m := by
  intro m
  induction m with
  | zero => rfl
  | succ k ih =>
    have hgi : Canvas.get_index
        { c with composited_cells := cc, previous_composited_cells := pc } x y k =
        c.get_index x y k := rfl
    have hpc : ∀ i, Canvas.pixelColorAt
        { c with composited_cells := cc, previous_composited_cells := pc } i =
        c.pixelColorAt i := fun _ => rfl
    simp only [Canvas.resolveFrom, hgi, hpc, ih]

theorem renderCell_update (c : Canvas) (cc pc : List CompositedCell) (yx : Nat × Nat) :
    Canvas.renderCell
      { c with composited_cells := cc, previous_composited_cells := pc } yx =
      c.renderCell yx := by
  simp only [Canvas.renderCell, Canvas.resolveColor]
  rw [resolveFrom_update c cc pc yx.2 (yx.1 * 2) c.max_z_layers,
    resolveFrom_update c cc pc yx.2 (yx.1 * 2 + 1) c.max_z_layers]

theorem strJoin_eq_empty {l : List String} (h : ∀ s ∈ l, s = "") : strJoin l = "" := by
  induction l with
  | nil => rfl
  | cons a l ih =>
    simp only [strJoin]
    rw [h a (List.mem_cons_self a l), ih (fun s hs => h s (List.mem_cons_of_mem a hs)),
      String.append_empty]

theorem render_snd_synced (c : Canvas)
    (hlen : c.composited_cells.length = c.width * c.height) :
    (c.render).2 = { c with
      composited_cells := buildCells c,
      previous_composited_cells := buildCells c } := by
  rw [render_snd_eq,
    foldl_set_consecutive c.renderCell c.width (cellOrder c.height c.width)
      c.composited_cells 0
      (by rw [cellOrder_length]; exact cellOrder_idx_map c.height c.width)
      (by rw [cellOrder_length, hlen, Nat.zero_add, Nat.mul_comm]),
    List.take_zero, List.nil_append, buildCells]

theorem getD_buildCells (c : Canvas) {y x : Nat} (hy : y < c.height) (hx : x < c.width) :
    (buildCells c).getD (y * c.width + x) ⟨c.default_color, c.default_color⟩ =
      c.renderCell (y, x) := by
  rw [buildCells, List.getD_eq_getElem?_getD, List.getElem?_map,
    cellOrder_getElem c.height c.width y x hy hx]
  rfl

theorem second_render_empty (c : Canvas)
    (hlen : c.composited_cells.length = c.width * c.height) :
    ((c.render).2.render).1 = "" := by
  rw [render_snd_synced c hlen, render_fst_eq]
  apply strJoin_eq_empty
  intro s hs
  rw [List.mem_map] at hs
  obtain ⟨yx, hmem, rfl⟩ := hs
  obtain ⟨hy, hx⟩ := mem_cellOrder hmem
  rw [Canvas.emitCell, if_pos]
  rw [renderCell_update, Canvas.prevAt]
  show c.renderCell yx =
    (buildCells c).getD (yx.1 * c.width + yx.2) ⟨c.default_color, c.default_color⟩
  rw [getD_buildCells c hy hx]

theorem resolveFrom_new (w h : Nat) (col : Color) (x y : Nat) :
    ∀ m, (Canvas.new w h col).resolveFrom x y m = col := by
  intro m
  induction m with
  | zero => rfl
  | succ k ih =>
    have hcol : ∀ i, (Canvas.new w h col).pixelColorAt i = col := by
      intro i
      rw [Canvas.pixelColorAt,
        show (Canvas.new w h col).pixels =
          List.replicate (w * h * 2 * DEFAULT_MAX_Z_LAYERS) ⟨col⟩ from rfl,
        List.getD_eq_getElem?_getD, List.getElem?_replicate]
      by_cases hi : i < w * h * 2 * DEFAULT_MAX_Z_LAYERS
      · rw [if_pos hi]
        rfl
      · rw [if_neg hi]
        rfl
    cases hgi : (Canvas.new w h col).get_index x y k with
    | none => simp only [Canvas.resolveFrom, hgi, ih]
    | some i =>
      simp only [Canvas.resolveFrom, hgi, hcol, ih,
        show (Canvas.new w h col).default_color = col from rfl, ne_eq,
        not_true_eq_false, if_false]

theorem renderCell_new (w h : Nat) (col : Color) (yx : Nat × Nat) :
    (Canvas.new w h col).renderCell yx = ⟨col, col⟩ := by
  rw [Canvas.renderCell, Canvas.resolveColor, Canvas.resolveColor, resolveFrom_new,
    resolveFrom_new]

theorem idx_lt (y x h w : Nat) (hy : y < h) (hx : x < w) : y * w + x < w * h := by
  have h1 : y * w + x < (y + 1) * w := by
    rw [Nat.succ_mul]
    exact Nat.add_lt_add_left hx _
  have h2 : (y + 1) * w ≤ h * w := Nat.mul_le_mul_right w hy
  rw [Nat.mul_comm w h]
  exact Nat.lt_of_lt_of_le h1 h2

theorem prevAt_new (w h : Nat) (col : Color) {yx : Nat × Nat} (hy : yx.1 < h)
    (hx : yx.2 < w) :
    (Canvas.new w h col).prevAt yx =
      ⟨⟨255 - col.r, 255 - col.g, 255 - col.b⟩, ⟨255 - col.r, 255 - col.g, 255 - col.b⟩⟩ := by
  rw [Canvas.prevAt, show (Canvas.new w h col).width = w from rfl,
    show (Canvas.new w h col).previous_composited_cells =
      List.replicate (w * h)
        ⟨⟨255 - col.r, 255 - col.g, 255 - col.b⟩,
         ⟨255 - col.r, 255 - col.g, 255 - col.b⟩⟩ from rfl,
    List.getD_eq_getElem?_getD, List.getElem?_replicate,
    if_pos (idx_lt yx.1 yx.2 h w hy hx)]
  rfl

theorem opp_cell_ne (col : Color) :
    (⟨⟨255 - col.r, 255 - col.g, 255 - col.b⟩,
      ⟨255 - col.r, 255 - col.g, 255 - col.b⟩⟩ : CompositedCell) ≠ ⟨col, col⟩ := by
  intro hcontr
  have h1 : (255 - col.r : Nat) = col.r :=
    congrArg (fun cell => cell.top_color.r) hcontr
  omega

theorem cellUpdate_ne_empty (y x : Nat) (cell : CompositedCell) :
    cellUpdate y x cell ≠ "" := by
  intro hcontr
  have hd := congrArg String.data hcontr
  simp only [cellUpdate, String.data_append] at hd
  have h1 := (List.append_eq_nil.mp hd).2
  have h2 : halfBlock.data ≠ [] := by decide
  exact h2 h1

/-- C1 counterexample: on the 2×1 scenario the first `render()` does NOT
produce an update consisting of exactly the single dirty-cell record at
terminal position (1,1) — the seeded previous state makes the second cell
dirty as well. -/
theorem c1_counterexample :
    (c1canvas.render).1 ≠ cellUpdate 0 0 ⟨⟨255, 0, 0⟩, ⟨0, 255, 0⟩⟩ := by decide

/-- C1 amended: on the 2×1 scenario the first `render()` produces exactly two
dirty-cell records: one at terminal position (row 1, col 1) with
background (255,0,0) and foreground (0,255,0), and one at (row 1, col 2)
with background and foreground both the default color (0,0,0); a second
`render()` with no intervening writes produces the empty update. -/
theorem c1_amended :
    (c1canvas.render).1 =
      cellUpdate 0 0 ⟨⟨255, 0, 0⟩, ⟨0, 255, 0⟩⟩ ++ cellUpdate 0 1 ⟨black, black⟩ ∧
    ((c1canvas.render).2.render).1 = "" :=
  ⟨by decide, by decide⟩

/-- C2: on a freshly constructed grid the first `render()` emits exactly one
change record for every terminal cell in row-major order (the previous state
is seeded with the channel-wise complement of the default color, which always
differs from it), so the update is non-empty whenever width·height > 0. -/
theorem c2_first_render_full (w h : Nat) (col : Color) :
    (Canvas.new w h col).previous_composited_cells =
      List.replicate (w * h)
        ⟨⟨255 - col.r, 255 - col.g, 255 - col.b⟩,
         ⟨255 - col.r, 255 - col.g, 255 - col.b⟩⟩ ∧
    ((Canvas.new w h col).render).1 =
      strJoin ((cellOrder h w).map (fun yx => cellUpdate yx.1 yx.2 ⟨col, col⟩)) ∧
    (0 < w * h → ((Canvas.new w h col).render).1 ≠ "") := by
  have hmain : ((Canvas.new w h col).render).1 =
      strJoin ((cellOrder h w).map (fun yx => cellUpdate yx.1 yx.2 ⟨col, col⟩)) := by
    rw [render_fst_eq]
    show strJoin ((cellOrder h w).map (Canvas.new w h col).emitCell) = _
    refine congrArg strJoin (List.map_congr_left ?_)
    intro yx hmem
    obtain ⟨hy, hx⟩ := mem_cellOrder hmem
    rw [Canvas.emitCell, renderCell_new, prevAt_new w h col hy hx, if_neg]
    intro hcontr
    exact opp_cell_ne col hcontr.symm
  refine ⟨rfl, hmain, ?_⟩
  intro hpos
  have hw : 0 < w := by
    rcases Nat.eq_zero_or_pos w with rfl | hw
    · rw [Nat.zero_mul] at hpos
      exact absurd hpos (Nat.lt_irrefl 0)
    · exact hw
  have hh : 0 < h := by
    rcases Nat.eq_zero_or_pos h with rfl | hh
    · rw [Nat.mul_zero] at hpos
      exact absurd hpos (Nat.lt_irrefl 0)
    · exact hh
  obtain ⟨t, ht⟩ := cellOrder_pos h w hh hw
  rw [hmain, ht, List.map_cons]
  simp only [strJoin]
  intro hcontr
  have hd := congrArg String.data hcontr
  rw [String.data_append] at hd
  have h1 := (List.append_eq_nil.mp hd).1
  exact cellUpdate_ne_empty 0 0 ⟨col, col⟩ (String.ext h1)

theorem c2_witness :
    0 < 2 * 1 ∧ ((Canvas.new 2 1 ⟨7, 7, 7⟩).render).1 ≠ "" :=
  ⟨by decide, (c2_first_render_full 2 1 ⟨7, 7, 7⟩).2.2 (by decide)⟩

/-- C6: immediately after `render()` the previous composited array equals the
current composited array, and (for any canvas whose composited array has the
size the constructor establishes) a second consecutive `render()` with no
intervening writes returns the empty update. -/
theorem c6_render_syncs (c : Canvas) :
    (c.render).2.previous_composited_cells = (c.render).2.composited_cells ∧
    (c.composited_cells.length = c.width * c.height → ((c.render).2.render).1 = "") :=
  ⟨rfl, fun hlen => second_render_empty c hlen⟩

theorem c6_witness :
    (Canvas.new 1 1 black).composited_cells.length =
      (Canvas.new 1 1 black).width * (Canvas.new 1 1 black).height ∧
    (((Canvas.new 1 1 black).render).2.render).1 = "" :=
  ⟨by decide, (c6_render_syncs (Canvas.new 1 1 black)).2 (by decide)⟩

/-- C7: the update string consists, for each cell (visited in row-major
order) whose current composited pair differs from the previous one, of
exactly the cursor move to the 1-indexed (row+1, col+1), the 24-bit
background sequence for the top color, the 24-bit foreground sequence for
the bottom color, and one half-block glyph; unchanged cells contribute
nothing and nothing is appended after the last record. -/
theorem c7_wire_format (c : Canvas) :
    (c.render).1 = strJoin ((cellOrder c.height c.width).map (fun yx =>
      if c.renderCell yx = c.prevAt yx then ""
      else escMove (yx.1 + 1) (yx.2 + 1) ++ escBg (c.renderCell yx).top_color ++
        escFg (c.renderCell yx).bottom_color ++ halfBlock)) := by
  rw [render_fst_eq]
  rfl

/-- C9: construction with zero width or zero height succeeds, every
coordinate is out of bounds (`get_index` always returns none), and
`render()` returns the empty update. -/
theorem c9_zero_dims (w h : Nat) (col : Color) (hzero : w = 0 ∨ h = 0) :
    (∀ x y z, (Canvas.new w h col).get_index x y z = none) ∧
    ((Canvas.new w h col).render).1 = "" := by
  constructor
  · intro x y z
    apply get_index_none
    rcases hzero with rfl | rfl
    · exact Or.inl (Nat.zero_le x)
    · exact Or.inr (Or.inl (Nat.zero_le y))
  · rw [render_fst_eq]
    apply strJoin_eq_empty
    intro s hs
    rw [List.mem_map] at hs
    obtain ⟨yx, hmem, rfl⟩ := hs
    obtain ⟨hy, hx⟩ := mem_cellOrder hmem
    exfalso
    rcases hzero with rfl | rfl
    · exact absurd hx (Nat.not_lt_zero _)
    · exact absurd hy (Nat.not_lt_zero _)

theorem c9_witness :
    ((0 : Nat) = 0 ∨ (3 : Nat) = 0) ∧ ((Canvas.new 0 3 black).render).1 = "" :=
  ⟨Or.inl rfl, (c9_zero_dims 0 3 black (Or.inl rfl)).2⟩
